import Mathlib

/-!
Verification development for the sudoku data generator
(`src/generator.py`, `src/config.py`).

The Python code is shallowly embedded: a 9×9 grid (a Python list of
lists, always indexed in `0..8`) is modelled as a function
`Nat → Nat → Nat`; the process-wide pseudorandom source is modelled by
explicit parameters (each `random.shuffle` result becomes a list
parameter, `random.randint(a, b)` becomes an `Int` parameter constrained
to `[a, b]`); Python `float` timing arithmetic is modelled exactly over
`ℚ`; code that can raise becomes `Except String`.  In-place list
mutation is modelled twice: at value level (functional update) and, for
the frame-condition claims, at heap level with grids stored at explicit
addresses.
-/

namespace SudokuGen

/-- A 9×9 grid of digits, `0` meaning empty (`src/generator.py` uses a
list of 9 lists of 9 ints, always indexed with `0 ≤ i, j ≤ 8`). -/
abbrev Grid := Nat → Nat → Nat

/-- In-place cell assignment `grid[a][b] = v` of the Python code, as a
functional update. -/
def setCell (g : Grid) (a b v : Nat) : Grid :=
  fun i j => if i = a ∧ j = b then v else g i j

/-- `grid = [[0] * 9 for _ in range(9)]` (generator.py line 88). -/
def emptyGrid : Grid := fun _ _ => 0

/-- All 81 cell positions in row-major order, the iteration order of
`for i in range(9): for j in range(9)` used throughout generator.py. -/
def allPositions : List (Nat × Nat) :=
  (List.range 9).flatMap (fun i => (List.range 9).map (fun j => (i, j)))

/-- `_is_valid(grid, row, col, num)` (generator.py lines 127-147): `num`
occurs nowhere in the row, the column, or the containing 3×3 box. -/
def is_valid (g : Grid) (row col num : Nat) : Bool :=
  ((List.range 9).all fun j => g row j != num) &&
  ((List.range 9).all fun i => g i col != num) &&
  (let boxRow := row / 3 * 3
   let boxCol := col / 3 * 3
   (List.range 3).all fun i =>
     (List.range 3).all fun j => g (boxRow + i) (boxCol + j) != num)

/-- `_fill_box(grid, row, col)` (generator.py lines 99-108): write the
shuffled list `numbers` into the 3×3 box at `(row, col)`, index
`idx = 3*i + j`.  The shuffle result is the explicit parameter
`numbers`. -/
def fill_box (g : Grid) (row col : Nat) (numbers : List Nat) : Grid :=
  (List.range 3).foldl
    (fun acc i =>
      (List.range 3).foldl
        (fun acc2 j => setCell acc2 (row + i) (col + j) (numbers.getD (3 * i + j) 0))
        acc)
    g

/-- The row-major scan `for i in range(9): for j in range(9): if grid[i][j] == 0`
that picks the cell filled next by `_solve_sudoku` (generator.py lines 112-114). -/
def firstEmpty (g : Grid) : Option (Nat × Nat) :=
  allPositions.find? (fun p => g p.1 p.2 == 0)

/-- The `for num in numbers` candidate loop of `_solve_sudoku`
(generator.py lines 118-124): try each candidate; on recursive failure
the Python code restores `grid[i][j] = 0`, so the functional model keeps
iterating from the unmodified grid.  `solveRest` is the recursive call
(one level less fuel). -/
def tryNums (solveRest : Grid → Nat → Bool × Grid × Nat) (g : Grid) (i j : Nat) :
    List Nat → Nat → Bool × Grid × Nat
  | [], k => (false, g, k)
  | n :: rest, k =>
    if is_valid g i j n then
      match solveRest (setCell g i j n) k with
      | (true, g2, k2) => (true, g2, k2)
      | (false, _, k2) => tryNums solveRest g i j rest k2
    else tryNums solveRest g i j rest k

/-- `_solve_sudoku(grid)` (generator.py lines 110-125): backtracking over
the first empty cell in row-major order.  `σ k` is the result of the
`k`-th `random.shuffle(numbers)` (a permutation of `[1..9]` in every
actual run); the returned `Nat` is the next shuffle index.  The fuel
argument only bounds the recursion depth, which in every run on
permutation streams is at most one more than the number of empty cells
(≤ 82); the Python function recurses unboundedly. -/
def solve_sudoku : Nat → Grid → (Nat → List Nat) → Nat → Bool × Grid × Nat
  | 0, g, _, k => (false, g, k)
  | fuel + 1, g, σ, k =>
    match firstEmpty g with
    | none => (true, g, k)
    | some (i, j) => tryNums (fun g2 k2 => solve_sudoku fuel g2 σ k2) g i j (σ k) (k + 1)

/-- The tail of `_generate_complete_sudoku` (generator.py lines 94-97):
`self._solve_sudoku(grid); return grid` — the solver's boolean result is
discarded and the grid is returned unconditionally. -/
def solveAndReturn (g : Grid) (σ : Nat → List Nat) : Grid :=
  (solve_sudoku 82 g σ 0).2.1

/-- The seeding phase of `_generate_complete_sudoku` (generator.py lines
88-92): an empty grid whose three diagonal boxes are filled with the
shuffles `p0, p1, p2`. -/
def seedGrid (p0 p1 p2 : List Nat) : Grid :=
  fill_box (fill_box (fill_box emptyGrid 0 0 p0) 3 3 p1) 6 6 p2

/-- `_generate_complete_sudoku()` (generator.py lines 86-97): fill the
three diagonal boxes with the shuffles `p0, p1, p2`, then run the
backtracking solver and return the grid (its boolean is ignored). -/
def generate_complete_sudoku (p0 p1 p2 : List Nat) (σ : Nat → List Nat) : Grid :=
  solveAndReturn (seedGrid p0 p1 p2) σ

/-- The removal loop of `_create_puzzle` (generator.py lines 161-177):
walk the shuffled positions, break as soon as `removed >= target_removed`,
otherwise zero the cell and count it.  Arithmetic is over `Int` because
`target_removed = 81 - target_givens` can be negative in Python. -/
def carveLoop : List (Nat × Nat) → Int → Int → Grid → Grid
  | [], _, _, g => g
  | (r, c) :: rest, removed, targetRemoved, g =>
    if targetRemoved ≤ removed then g
    else carveLoop rest (removed + 1) targetRemoved (setCell g r c 0)

/-- `_create_puzzle(puzzle, solution)` (generator.py lines 149-178) after
`random.randint` and `random.shuffle` succeeded: `targetGivens` is the
`randint(min_givens, max_givens)` result, `positions` the shuffled list
of all 81 positions.  (The `solution` argument is never read by the
Python body.) -/
def create_puzzle (puzzle : Grid) (targetGivens : Int) (positions : List (Nat × Nat)) : Grid :=
  carveLoop positions 0 (81 - targetGivens) puzzle

/-- `_create_puzzle` including the exception behaviour of
`random.randint(min_givens, max_givens)` (generator.py line 154): Python's
`randint` validates its arguments and raises `ValueError` when
`min_givens > max_givens`, before consuming any randomness; no other
statement of `_create_puzzle` can raise.  There is no `ConfigurationError`
(or any configuration validation) anywhere in the repository. -/
def create_puzzle_checked (puzzle : Grid) (minGivens maxGivens targetGivens : Int)
    (positions : List (Nat × Nat)) : Except String Grid :=
  if maxGivens < minGivens then Except.error "ValueError"
  else Except.ok (create_puzzle puzzle targetGivens positions)

/-- `_generate_sudoku()` (generator.py lines 70-84): generate the complete
solution, deep-copy it, carve the copy, return `(puzzle, solution)`. -/
def generate_sudoku (p0 p1 p2 : List Nat) (σ : Nat → List Nat) (targetGivens : Int)
    (positions : List (Nat × Nat)) : Grid × Grid :=
  let solution := generate_complete_sudoku p0 p1 p2 σ
  let puzzle := create_puzzle solution targetGivens positions
  (puzzle, solution)

/-- `givens = sum(1 for row in puzzle for cell in row if cell != 0)`
(generator.py line 182). -/
def givens (g : Grid) : Nat :=
  allPositions.countP (fun p => g p.1 p.2 != 0)

/-- `_assess_difficulty(puzzle)` (generator.py lines 180-189). -/
def assess_difficulty (g : Grid) : String :=
  if 30 ≤ givens g then "easy"
  else if 25 ≤ givens g then "medium"
  else "hard"

/-- Build a grid from a list of rows (used only for concrete instances;
out-of-range cells read as 0). -/
def ofRows (l : List (List Nat)) : Grid :=
  fun i j => (l.getD i []).getD j 0

/-- A concrete fully populated valid solution grid, used to instantiate
theorems at the kind of input `_create_puzzle` receives. -/
def canonicalGrid : Grid :=
  fun r c => if r < 9 ∧ c < 9 then (3 * (r % 3) + r / 3 + c) % 9 + 1 else 0

/-- Python `int(num / den)` for `den > 0`: truncation toward zero of the
exact rational `num / den`. -/
def intTruncDiv (num den : Int) : Int :=
  Int.tdiv num den

/-- Python 3 `round(num / den)` for `den > 0`: round the exact rational
`num / den` half to even (banker's rounding).  `f` is the floor of the
quotient and `r2` twice the remainder, so `r2 < den`, `r2 = den`,
`den < r2` classify the fractional part against `1/2`. -/
def pyRoundDiv (num den : Int) : Int :=
  let f := Int.fdiv num den
  let r2 := 2 * (num - f * den)
  if r2 < den then f
  else if den < r2 then f + 1
  else if f % 2 = 0 then f else f + 1

/-- One animation frame: the rendered grid state together with the
`highlight_cells` argument passed to `_render_sudoku` (`[]` models
`None`, `[(r, c)]` a single highlighted cell). -/
abbrev Frame := Grid × List (Nat × Nat)

/-- `cells_to_fill` (generator.py lines 309-313): the empty cells of the
puzzle in row-major order, before shuffling. -/
def cellsToFill (g : Grid) : List (Nat × Nat) :=
  allPositions.filter (fun p => g p.1 p.2 == 0)

/-- `target_frames = int(self.config.target_video_duration * self.config.video_fps)`
(generator.py line 318): the float product `duration * fps` is modelled
exactly as the rational `(duration.num * fps) / duration.den`, then
truncated by Python's `int`. -/
def targetFrames (duration : ℚ) (fps : Int) : Int :=
  intTruncDiv (duration.num * fps) (duration.den : Int)

/-- `reserved_frames = hold_frames * 2; available_frames = max(1, target_frames - reserved_frames)`
(generator.py lines 322-323). -/
def availableFrames (tf : Int) (holdFrames : Nat) : Int :=
  max 1 (tf - (holdFrames : Int) * 2)

/-- The `step_frames is None` branch (generator.py lines 325-332):
`max(1, round(available_frames / num_cells))` when there are empty
cells, else `1`. -/
def stepFramesFor (numCells : Nat) (af : Int) : Int :=
  if 0 < numCells then max 1 (pyRoundDiv af (numCells : Int)) else 1

/-- Modelled from the spec's words, for comparison in claim C4 only:
`target_frames = round(target_duration × fps)` (spec §4.2), with `round`
read as Python's `round`. -/
def specTargetFrames (duration : ℚ) (fps : Int) : Int :=
  pyRoundDiv (duration.num * fps) (duration.den : Int)

/-- The selection of `step_frames` (generator.py lines 325-332): the
caller-provided value when present, otherwise the computed
distribution. -/
def stepChoice (stepArg : Option Int) (n : Nat) (duration : ℚ) (fps : Int)
    (hold : Nat) : Int :=
  match stepArg with
  | some s => s
  | none => stepFramesFor n (availableFrames (targetFrames duration fps) hold)

/-- The reveal loop of `_create_solving_frames` (generator.py lines
345-354): for each cell in the shuffled order, set it to the solution's
value in the running state and emit `step_frames` copies of the new
state with that cell highlighted. -/
def revealSteps (solution : Grid) (stepN : Nat) : Grid → List (Nat × Nat) → List Frame
  | _, [] => []
  | state, (r, c) :: rest =>
    let state2 := setCell state r c (solution r c)
    List.replicate stepN (state2, [(r, c)]) ++ revealSteps solution stepN state2 rest

/-- `_create_solving_frames(puzzle, solution, hold_frames, step_frames)`
(generator.py lines 293-361).  `shuffled` is the result of
`random.shuffle(cells_to_fill)`; `stepArg` is the optional `step_frames`
argument (`none` in the only call site, line 281).  `num_cells` is
computed from the unshuffled list, whose length `shuffled` shares. -/
def create_solving_frames (puzzle solution : Grid) (duration : ℚ) (fps : Int)
    (holdFrames : Nat) (stepArg : Option Int) (shuffled : List (Nat × Nat)) : List Frame :=
  let step : Int := stepChoice stepArg (cellsToFill puzzle).length duration fps holdFrames
  List.replicate holdFrames ((puzzle, []) : Frame)
    ++ revealSteps solution step.toNat puzzle shuffled
    ++ List.replicate holdFrames ((solution, []) : Frame)

/-- The grid state after the whole reveal loop has run (the value of
`current_state` at generator.py line 356). -/
def finalRevealState (puzzle solution : Grid) (cells : List (Nat × Nat)) : Grid :=
  cells.foldl (fun g p => setCell g p.1 p.2 (solution p.1 p.2)) puzzle

/-! ### Heap-level model of the in-place mutation

Python mutates list-of-list grids in place.  To state frame conditions
(which grids a call can change) we re-embed the two mutating loops over
an explicit store mapping addresses to grid values: every write names
the address it targets, exactly as the Python assignments do. -/

/-- A store of grid objects, addressed by `Nat`. -/
abbrev Heap := Nat → Grid

/-- Overwrite the grid object at address `a`. -/
def writeHeap (h : Heap) (a : Nat) (g : Grid) : Heap :=
  fun x => if x = a then g else h x

/-- The removal loop of `_create_puzzle` at heap level: every iteration
writes only the `puzzle` argument's address `pa`
(`puzzle[row][col] = 0`, generator.py line 171). -/
def carveLoopH (pa : Nat) : List (Nat × Nat) → Int → Int → Heap → Heap
  | [], _, _, h => h
  | (r, c) :: rest, removed, targetRemoved, h =>
    if targetRemoved ≤ removed then h
    else carveLoopH pa rest (removed + 1) targetRemoved
      (writeHeap h pa (setCell (h pa) r c 0))

/-- The reveal loop of `_create_solving_frames` at heap level: each
iteration reads `solution` at address `sa`, and writes only the fresh
copy `current_state` at address `fresh`
(`current_state[row][col] = solution[row][col]`, generator.py line 347). -/
def revealLoopH (sa fresh : Nat) (stepN : Nat) : Heap → List (Nat × Nat) → Heap × List Frame
  | h, [] => (h, [])
  | h, (r, c) :: rest =>
    let state2 := setCell (h fresh) r c (h sa r c)
    let h2 := writeHeap h fresh state2
    let res := revealLoopH sa fresh stepN h2 rest
    (res.1, List.replicate stepN (state2, [(r, c)]) ++ res.2)

/-- `_create_solving_frames` at heap level: the puzzle lives at `pa`, the
solution at `sa`; `current_state = [row[:] for row in puzzle]`
(generator.py line 343) allocates a deep copy at the fresh address
`fresh`, and all subsequent writes target `fresh` only. -/
def create_solving_frames_heap (h0 : Heap) (pa sa fresh : Nat) (duration : ℚ) (fps : Int)
    (holdFrames : Nat) (stepArg : Option Int) (shuffled : List (Nat × Nat)) :
    Heap × List Frame :=
  let step : Int := stepChoice stepArg (cellsToFill (h0 pa)).length duration fps holdFrames
  let initFrames := List.replicate holdFrames ((h0 pa, []) : Frame)
  let h1 := writeHeap h0 fresh (h0 pa)
  let res := revealLoopH sa fresh step.toNat h1 shuffled
  (res.1, initFrames ++ res.2 ++ List.replicate holdFrames ((res.1 sa, []) : Frame))

/-- All highlighted-cell annotations appearing across a frame
sequence. -/
def highlightsOf (frames : List Frame) : List (Nat × Nat) :=
  frames.flatMap (fun f => f.2)

/-- A candidate stream under which the backtracking solver gives up at
the first empty cell, so that `_generate_sudoku`'s behaviour can be
evaluated in closed form (the theorems below hold for every stream). -/
def emptyStream : Nat → List Nat := fun _ => []

/-- The identity candidate order `[1..9]` for every shuffle (one of the
possible `random.shuffle` outcomes). -/
def identityStream : Nat → List Nat := fun _ => [1, 2, 3, 4, 5, 6, 7, 8, 9]

/-- A concrete grid on which the backtracking search fails at the top
level: the first empty cell in row-major order is `(0, 8)`, whose row
already holds `1..8` and whose column already holds `9`, so every
candidate is rejected. -/
def stuckGrid : Grid :=
  ofRows [[1, 2, 3, 4, 5, 6, 7, 8, 0], [0, 0, 0, 0, 0, 0, 0, 0, 9]]

/-- A concrete grid with 30 givens. -/
def thirtyGrid : Grid :=
  ofRows [[1, 2, 3, 4, 5, 6, 7, 8, 9], [1, 2, 3, 4, 5, 6, 7, 8, 9],
    [1, 2, 3, 4, 5, 6, 7, 8, 9], [1, 2, 3, 0, 0, 0, 0, 0, 0],
    [0, 0, 0, 0, 0, 0, 0, 0, 0], [0, 0, 0, 0, 0, 0, 0, 0, 0],
    [0, 0, 0, 0, 0, 0, 0, 0, 0], [0, 0, 0, 0, 0, 0, 0, 0, 0],
    [0, 0, 0, 0, 0, 0, 0, 0, 0]]

/-- A second concrete grid with 30 givens, distributed differently from
the 30 givens of `thirtyGrid`. -/
def thirtyGridB : Grid :=
  ofRows [[9, 8, 7, 6, 5, 4, 3, 2, 1], [1, 2, 3, 4, 5, 6, 7, 8, 9],
    [9, 8, 7, 6, 5, 4, 3, 2, 1], [0, 0, 0, 0, 0, 0, 0, 0, 0],
    [0, 0, 0, 0, 0, 0, 0, 0, 0], [0, 0, 0, 0, 0, 0, 0, 0, 3],
    [0, 0, 0, 0, 0, 0, 0, 0, 2], [0, 0, 0, 0, 0, 0, 0, 0, 0],
    [0, 0, 0, 0, 0, 0, 0, 0, 1]]

/-! ### Units and validity (for the solver-correctness development)

The spec's validity property (§3) quantifies over the 27 units: 9 rows,
9 columns and the 9 boxes aligned at multiples of 3. -/

/-- The cells of row `r`. -/
def rowUnit (r : Nat) : List (Nat × Nat) :=
  (List.range 9).map (fun c => (r, c))

/-- The cells of column `c`. -/
def colUnit (c : Nat) : List (Nat × Nat) :=
  (List.range 9).map (fun r => (r, c))

/-- The cells of the 3×3 box with block coordinates `(a, b)`. -/
def boxUnit (a b : Nat) : List (Nat × Nat) :=
  (List.range 3).flatMap (fun i => (List.range 3).map (fun j => (3 * a + i, 3 * b + j)))

/-- The 27 units of the grid: 9 rows, 9 columns, 9 aligned boxes. -/
def units : List (List (Nat × Nat)) :=
  (List.range 9).map rowUnit ++ (List.range 9).map colUnit ++
    (List.range 3).flatMap (fun a => (List.range 3).map (fun b => boxUnit a b))

/-- No unit carries a duplicated non-zero value: a partial grid that can
still be completed without violating the placement rule checked by
`_is_valid`. -/
def Consistent (g : Grid) : Prop :=
  ∀ u ∈ units, ∀ p ∈ u, ∀ q ∈ u, p ≠ q → g p.1 p.2 ≠ 0 → g p.1 p.2 ≠ g q.1 q.2

/-- Every in-range cell value is at most 9. -/
def InRange (g : Grid) : Prop :=
  ∀ p ∈ allPositions, g p.1 p.2 ≤ 9

/-- Every cell is filled (no zeros). -/
def Full (g : Grid) : Prop :=
  ∀ p ∈ allPositions, g p.1 p.2 ≠ 0

/-- The validity property of claim C1: every row, column and aligned box
holds each digit 1–9 exactly once (its value list is a permutation of
`[1..9]`). -/
def validSolution (g : Grid) : Prop :=
  ∀ u ∈ units, (u.map (fun p => g p.1 p.2)).Perm (List.range' 1 9)

/-! ### Basic facts about the embedding -/

theorem setCell_eval (g : Grid) (a b v i j : Nat) :
    setCell g a b v i j = if i = a ∧ j = b then v else g i j := rfl

theorem stepChoice_none (n : Nat) (duration : ℚ) (fps : Int) (hold : Nat) :
    stepChoice none n duration fps hold =
      stepFramesFor n (availableFrames (targetFrames duration fps) hold) := rfl

theorem allPositions_nodup : allPositions.Nodup := by decide

theorem allPositions_length : allPositions.length = 81 := by decide

/-- The carving loop can only zero a cell or leave it unchanged; it never
writes a non-zero value. -/
theorem carveLoop_cell_cases (ps : List (Nat × Nat)) :
    ∀ (removed targetRemoved : Int) (g : Grid) (i j : Nat),
      carveLoop ps removed targetRemoved g i j = g i j ∨
      carveLoop ps removed targetRemoved g i j = 0 := by
  induction ps with
  | nil => intro removed tr g i j; left; rfl
  | cons p rest ih =>
    intro removed tr g i j
    obtain ⟨r, c⟩ := p
    by_cases hbr : tr ≤ removed
    · left; simp [carveLoop, hbr]
    · rw [carveLoop, if_neg hbr]
      rcases ih (removed + 1) tr (setCell g r c 0) i j with h2 | h2 <;> rw [h2]
      · by_cases hij : i = r ∧ j = c
        · right; simp [setCell_eval, hij]
        · left; simp [setCell_eval, hij]
      · right; rfl

/-- The heap-level carving loop writes only the puzzle's address `pa`:
any other stored grid is untouched. -/
theorem carveLoopH_frame (pa : Nat) (ps : List (Nat × Nat)) :
    ∀ (removed targetRemoved : Int) (h : Heap) (x : Nat), x ≠ pa →
      carveLoopH pa ps removed targetRemoved h x = h x := by
  induction ps with
  | nil => intro removed tr h x _; rfl
  | cons p rest ih =>
    intro removed tr h x hx
    obtain ⟨r, c⟩ := p
    by_cases hbr : tr ≤ removed
    · simp [carveLoopH, hbr]
    · rw [carveLoopH, if_neg hbr, ih _ _ _ _ hx, writeHeap, if_neg hx]

/-- C2.  For every `(puzzle, solution)` pair returned by
`_generate_sudoku`, at every position `(r, c)` with `r, c ∈ [0, 8]`, if
`puzzle[r][c] ≠ 0` then `puzzle[r][c] = solution[r][c]`; the solution
component is exactly the grid produced by `_generate_complete_sudoku`
before carving, and at heap level the carving loop never writes any
address other than the puzzle copy's, so the solution grid is unchanged
by carving. -/
theorem claim_C2_consistency (p0 p1 p2 : List Nat) (σ : Nat → List Nat)
    (targetGivens : Int) (positions : List (Nat × Nat)) :
    (∀ p ∈ allPositions,
        (generate_sudoku p0 p1 p2 σ targetGivens positions).1 p.1 p.2 ≠ 0 →
        (generate_sudoku p0 p1 p2 σ targetGivens positions).1 p.1 p.2 =
          (generate_sudoku p0 p1 p2 σ targetGivens positions).2 p.1 p.2) ∧
    (generate_sudoku p0 p1 p2 σ targetGivens positions).2 =
      generate_complete_sudoku p0 p1 p2 σ ∧
    (∀ (h : Heap) (pa sa : Nat) (removed targetRemoved : Int)
        (ps' : List (Nat × Nat)), sa ≠ pa →
        carveLoopH pa ps' removed targetRemoved h sa = h sa) := by
  refine ⟨?_, rfl, fun h pa sa removed tr ps' hne => carveLoopH_frame pa ps' removed tr h sa hne⟩
  intro p _ hnz
  rcases carveLoop_cell_cases positions 0 (81 - targetGivens)
      (generate_complete_sudoku p0 p1 p2 σ) p.1 p.2 with hc | hc
  · exact hc
  · exact absurd hc hnz

theorem claim_C2_consistency_witness :
    ((0, 0) : Nat × Nat) ∈ allPositions ∧
    (generate_sudoku [1, 2, 3, 4, 5, 6, 7, 8, 9] [1, 2, 3, 4, 5, 6, 7, 8, 9]
        [1, 2, 3, 4, 5, 6, 7, 8, 9] emptyStream 81 allPositions).1 0 0 ≠ 0 ∧
    (generate_sudoku [1, 2, 3, 4, 5, 6, 7, 8, 9] [1, 2, 3, 4, 5, 6, 7, 8, 9]
        [1, 2, 3, 4, 5, 6, 7, 8, 9] emptyStream 81 allPositions).1 0 0 =
      (generate_sudoku [1, 2, 3, 4, 5, 6, 7, 8, 9] [1, 2, 3, 4, 5, 6, 7, 8, 9]
        [1, 2, 3, 4, 5, 6, 7, 8, 9] emptyStream 81 allPositions).2 0 0 := by
  refine ⟨by decide, by decide, ?_⟩
  exact (claim_C2_consistency [1, 2, 3, 4, 5, 6, 7, 8, 9] [1, 2, 3, 4, 5, 6, 7, 8, 9]
    [1, 2, 3, 4, 5, 6, 7, 8, 9] emptyStream 81 allPositions).1 (0, 0) (by decide) (by decide)

/-! ### Counting givens through the carving loop -/

/-- Flipping a predicate from true to false at one element of a
duplicate-free list lowers `countP` by exactly one. -/
theorem countP_flip_one {q q' : (Nat × Nat) → Bool} :
    ∀ (l : List (Nat × Nat)), l.Nodup → ∀ p ∈ l, q p = true → q' p = false →
      (∀ x ∈ l, x ≠ p → q' x = q x) → l.countP q = l.countP q' + 1 := by
  intro l
  induction l with
  | nil => intro _ p hp; cases hp
  | cons a rest ih =>
    intro hnd p hp hq hq' hagree
    rw [List.countP_cons, List.countP_cons]
    rcases List.mem_cons.mp hp with rfl | hmem
    · have hrest : rest.countP q = rest.countP q' := by
        apply List.countP_congr
        intro x hx
        rw [hagree x (List.mem_cons_of_mem _ hx)
          (fun hxp => (List.nodup_cons.mp hnd).1 (hxp ▸ hx))]
      rw [hrest, hq, hq']
      simp
    · have hap : a ≠ p := fun h => (List.nodup_cons.mp hnd).1 (h ▸ hmem)
      rw [hagree a (List.mem_cons_self _ _) hap]
      have := ih (List.nodup_cons.mp hnd).2 p hmem hq hq' fun x hx =>
        hagree x (List.mem_cons_of_mem _ hx)
      omega

/-- Zeroing a non-zero in-range cell lowers the given-count by one. -/
theorem givens_setCell_zero (g : Grid) (a b : Nat) (hmem : (a, b) ∈ allPositions)
    (hnz : g a b ≠ 0) :
    givens g = givens (setCell g a b 0) + 1 := by
  apply countP_flip_one allPositions allPositions_nodup (a, b) hmem
  · simpa using hnz
  · simp [setCell_eval]
  · intro x _ hxne
    have : ¬(x.1 = a ∧ x.2 = b) := by
      rintro ⟨h1, h2⟩
      exact hxne (Prod.ext h1 h2)
    simp [setCell_eval, this]

/-- Through the carving loop, the given-count drops by exactly
`(targetRemoved - removed).toNat`, provided the walked positions are
distinct, in range, non-zero, and numerous enough. -/
theorem carveLoop_givens (ps : List (Nat × Nat)) :
    ∀ (removed targetRemoved : Int) (g : Grid), ps.Nodup →
      (∀ p ∈ ps, p ∈ allPositions) → (∀ p ∈ ps, g p.1 p.2 ≠ 0) →
      (targetRemoved - removed).toNat ≤ ps.length →
      givens g = givens (carveLoop ps removed targetRemoved g) +
        (targetRemoved - removed).toNat := by
  induction ps with
  | nil =>
    intro removed tr g _ _ _ hlen
    simp only [List.length_nil, Nat.le_zero] at hlen
    simp [carveLoop, hlen]
  | cons p rest ih =>
    intro removed tr g hnd hin hnz hlen
    obtain ⟨r, c⟩ := p
    by_cases hbr : tr ≤ removed
    · have : (tr - removed).toNat = 0 := by omega
      simp [carveLoop, hbr, this]
    · rw [carveLoop, if_neg hbr]
      have hmem : (r, c) ∈ allPositions := hin _ (List.mem_cons_self _ _)
      have hg' := givens_setCell_zero g r c hmem (hnz _ (List.mem_cons_self _ _))
      have hnz' : ∀ p ∈ rest, setCell g r c 0 p.1 p.2 ≠ 0 := by
        intro p hp
        have hpair : p ≠ (r, c) := fun h => (List.nodup_cons.mp hnd).1 (h ▸ hp)
        have : ¬(p.1 = r ∧ p.2 = c) := by
          rintro ⟨h1, h2⟩
          exact hpair (Prod.ext h1 h2)
        rw [setCell_eval, if_neg this]
        exact hnz p (List.mem_cons_of_mem _ hp)
      have hrec := ih (removed + 1) tr (setCell g r c 0) (List.nodup_cons.mp hnd).2
        (fun p hp => hin p (List.mem_cons_of_mem _ hp)) hnz'
        (by simp only [List.length_cons] at hlen; omega)
      omega

/-- A fully populated grid has 81 givens. -/
theorem givens_of_full (g : Grid) (hfull : ∀ p ∈ allPositions, g p.1 p.2 ≠ 0) :
    givens g = 81 := by
  rw [givens, ← allPositions_length]
  apply List.countP_eq_length.mpr
  intro p hp
  simpa using hfull p hp

/-- C3.  For every configuration with `0 < min_givens ≤ max_givens ≤ 81`,
the puzzle produced by `_create_puzzle` from a fully populated grid has
exactly `target_givens = randint(min_givens, max_givens)` non-zero
cells, hence a given-count in `[min_givens, max_givens]`; with
`min_givens = max_givens = 30` the count is exactly 30. -/
theorem claim_C3_given_count (g : Grid) (minG maxG t : Int)
    (positions : List (Nat × Nat))
    (hfull : ∀ p ∈ allPositions, g p.1 p.2 ≠ 0)
    (hperm : positions.Perm allPositions)
    (hmin : 0 < minG) (ht1 : minG ≤ t) (ht2 : t ≤ maxG) (hmax : maxG ≤ 81) :
    ((givens (create_puzzle g t positions) : Int) = t ∧
      minG ≤ (givens (create_puzzle g t positions) : Int) ∧
      (givens (create_puzzle g t positions) : Int) ≤ maxG) ∧
    (minG = 30 → maxG = 30 → givens (create_puzzle g t positions) = 30) := by
  have hnd : positions.Nodup := hperm.nodup_iff.mpr allPositions_nodup
  have hin : ∀ p ∈ positions, p ∈ allPositions := fun p hp => hperm.subset hp
  have hlen : positions.length = 81 := by rw [hperm.length_eq, allPositions_length]
  have h81 : givens g = 81 := givens_of_full g hfull
  have hcount := carveLoop_givens positions 0 (81 - t) g hnd hin
    (fun p hp => hfull p (hin p hp)) (by omega)
  rw [h81] at hcount
  have : create_puzzle g t positions = carveLoop positions 0 (81 - t) g := rfl
  rw [this]
  omega

theorem claim_C3_given_count_witness :
    (∀ p ∈ allPositions, canonicalGrid p.1 p.2 ≠ 0) ∧
    givens (create_puzzle canonicalGrid 30 allPositions) = 30 := by
  refine ⟨by decide, ?_⟩
  exact (claim_C3_given_count canonicalGrid 30 30 30 allPositions (by decide)
    (List.Perm.refl _) (by omega) (by omega) (by omega) (by omega)).2 rfl rfl

/-! ### Difficulty classification -/

/-- C9.  `_assess_difficulty` returns `"easy"` exactly when the
given-count is at least 30, `"medium"` exactly when it lies in
`[25, 30)`, `"hard"` exactly when it is below 25, and it depends on the
grid only through the given-count. -/
theorem claim_C9_difficulty (g g' : Grid) :
    (assess_difficulty g = "easy" ↔ 30 ≤ givens g) ∧
    (assess_difficulty g = "medium" ↔ 25 ≤ givens g ∧ givens g < 30) ∧
    (assess_difficulty g = "hard" ↔ givens g < 25) ∧
    (givens g = givens g' → assess_difficulty g = assess_difficulty g') := by
  refine ⟨?_, ?_, ?_, ?_⟩
  · by_cases h30 : 30 ≤ givens g
    · simp [assess_difficulty, h30]
    · by_cases h25 : 25 ≤ givens g <;> simp [assess_difficulty, h30, h25]
  · by_cases h30 : 30 ≤ givens g
    · simp only [assess_difficulty, if_pos h30]
      constructor
      · intro h; exact absurd h (by decide)
      · omega
    · by_cases h25 : 25 ≤ givens g
      · simp [assess_difficulty, h30, h25]
        omega
      · simp [assess_difficulty, h30, h25]
  · by_cases h30 : 30 ≤ givens g
    · simp only [assess_difficulty, if_pos h30]
      constructor
      · intro h; exact absurd h (by decide)
      · omega
    · by_cases h25 : 25 ≤ givens g
      · simp [assess_difficulty, h30, h25]
      · simp [assess_difficulty, h30, h25]
        omega
  · intro heq
    unfold assess_difficulty
    rw [heq]

theorem claim_C9_difficulty_witness :
    givens thirtyGrid = givens thirtyGridB ∧
    assess_difficulty thirtyGrid = "easy" ∧
    assess_difficulty thirtyGrid = assess_difficulty thirtyGridB := by
  refine ⟨by decide, ?_, ?_⟩
  · exact (claim_C9_difficulty thirtyGrid thirtyGridB).1.mpr (by decide)
  · exact (claim_C9_difficulty thirtyGrid thirtyGridB).2.2.2 (by decide)

/-! ### Frame-count accounting for the animation scheduler -/

theorem revealSteps_length (solution : Grid) (s : Nat) :
    ∀ (cells : List (Nat × Nat)) (st : Grid),
      (revealSteps solution s st cells).length = cells.length * s := by
  intro cells
  induction cells with
  | nil => intro st; simp [revealSteps]
  | cons p rest ih =>
    intro st
    obtain ⟨r, c⟩ := p
    rw [revealSteps, List.length_append, List.length_replicate, ih,
      List.length_cons, Nat.succ_mul]
    omega

theorem stepFramesFor_pos (n : Nat) (af : Int) : 1 ≤ stepFramesFor n af := by
  unfold stepFramesFor
  split
  · exact le_max_left _ _
  · exact le_refl _

/-- The total frame count of `_create_solving_frames` with `step_frames`
left unspecified: both hold segments plus `step_frames` frames per empty
cell. -/
theorem create_solving_frames_length (puzzle solution : Grid) (duration : ℚ)
    (fps : Int) (hold : Nat) (shuffled : List (Nat × Nat))
    (hperm : shuffled.Perm (cellsToFill puzzle)) :
    (create_solving_frames puzzle solution duration fps hold none shuffled).length =
      2 * hold + (stepFramesFor (cellsToFill puzzle).length
        (availableFrames (targetFrames duration fps) hold)).toNat *
        (cellsToFill puzzle).length := by
  unfold create_solving_frames
  simp only [stepChoice_none, List.length_append, List.length_replicate,
    revealSteps_length, hperm.length_eq, Nat.mul_comm]
  omega

/-- C5.  With `step_frames` computed by the scheduler, the emitted frame
sequence has length exactly `2*hold_frames + step_frames*n` where `n` is
the number of zero cells of the puzzle, `step_frames ≥ 1` always, and
for `n = 0` the sequence has length `2*hold_frames` and no frame carries
a highlighted cell. -/
theorem claim_C5_frame_count (puzzle solution : Grid) (duration : ℚ) (fps : Int)
    (hold : Nat) (shuffled : List (Nat × Nat))
    (hperm : shuffled.Perm (cellsToFill puzzle)) :
    (create_solving_frames puzzle solution duration fps hold none shuffled).length =
      2 * hold + (stepFramesFor (cellsToFill puzzle).length
        (availableFrames (targetFrames duration fps) hold)).toNat *
        (cellsToFill puzzle).length ∧
    1 ≤ stepFramesFor (cellsToFill puzzle).length
        (availableFrames (targetFrames duration fps) hold) ∧
    ((cellsToFill puzzle).length = 0 →
      (create_solving_frames puzzle solution duration fps hold none shuffled).length =
        2 * hold ∧
      ∀ f ∈ create_solving_frames puzzle solution duration fps hold none shuffled,
        f.2 = ([] : List (Nat × Nat))) := by
  refine ⟨create_solving_frames_length puzzle solution duration fps hold shuffled hperm,
    stepFramesFor_pos _ _, ?_⟩
  intro hn
  have hnil : cellsToFill puzzle = [] := List.length_eq_zero.mp hn
  have hshuf : shuffled = [] := List.Perm.eq_nil (hnil ▸ hperm)
  constructor
  · rw [create_solving_frames_length puzzle solution duration fps hold shuffled hperm, hn]
    omega
  · intro f hf
    unfold create_solving_frames at hf
    rw [hshuf] at hf
    simp only [revealSteps, List.mem_append, List.mem_replicate] at hf
    rcases hf with (⟨_, rfl⟩ | hf) | ⟨_, rfl⟩
    · rfl
    · cases hf
    · rfl

theorem claim_C5_frame_count_witness :
    ([((0 : Nat), (0 : Nat))] : List (Nat × Nat)).Perm
      (cellsToFill (setCell canonicalGrid 0 0 0)) ∧
    (create_solving_frames (setCell canonicalGrid 0 0 0) canonicalGrid
      (mkRat 43 4) 1 4 none [(0, 0)]).length = 10 := by
  refine ⟨by decide, ?_⟩
  have h := (claim_C5_frame_count (setCell canonicalGrid 0 0 0) canonicalGrid
    (mkRat 43 4) 1 4 [(0, 0)] (by decide)).1
  rw [h]
  decide

/-- C4 counterexample.  At `target_duration = 10.75` (exactly
representable in binary floating point) and `fps = 1`, the code's
`target_frames = int(10.75 * 1)` is 10, while the claimed
`round(10.75 * 1)` is 11. -/
theorem claim_C4_counterexample :
    targetFrames (mkRat 43 4) 1 = 10 ∧ specTargetFrames (mkRat 43 4) 1 = 11 ∧
    targetFrames (mkRat 43 4) 1 ≠ specTargetFrames (mkRat 43 4) 1 :=
  ⟨by decide, by decide, by decide⟩

/-- C4 amended.  The frame budget is `target_frames = int(duration × fps)`
(truncation toward zero, not `round`); `available_frames =
max(1, target_frames − 2×hold_frames)`; and `step_frames =
max(1, round(available_frames / n))` for `n > 0` zero cells (Python
banker's rounding), else `step_frames = 1` — stated through the length
of the emitted frame sequence. -/
theorem claim_C4_amended_schedule (puzzle solution : Grid) (duration : ℚ)
    (fps : Int) (hold : Nat) (shuffled : List (Nat × Nat))
    (hperm : shuffled.Perm (cellsToFill puzzle)) :
    (0 < (cellsToFill puzzle).length →
      (create_solving_frames puzzle solution duration fps hold none shuffled).length =
        2 * hold + (max 1 (pyRoundDiv
            (max 1 (intTruncDiv (duration.num * fps) (duration.den : Int) -
              2 * (hold : Int)))
            ((cellsToFill puzzle).length : Int))).toNat *
          (cellsToFill puzzle).length) ∧
    ((cellsToFill puzzle).length = 0 →
      (create_solving_frames puzzle solution duration fps hold none shuffled).length =
        2 * hold + 1 * 0) := by
  constructor
  · intro hn
    rw [create_solving_frames_length puzzle solution duration fps hold shuffled hperm]
    have hstep : stepFramesFor (cellsToFill puzzle).length
        (availableFrames (targetFrames duration fps) hold) =
        max 1 (pyRoundDiv
          (max 1 (intTruncDiv (duration.num * fps) (duration.den : Int) -
            2 * (hold : Int)))
          ((cellsToFill puzzle).length : Int)) := by
      rw [stepFramesFor, if_pos hn, availableFrames, targetFrames]
      ring_nf
    rw [hstep]
  · intro hn
    rw [create_solving_frames_length puzzle solution duration fps hold shuffled hperm, hn]
    omega

theorem claim_C4_amended_schedule_witness :
    ([((0 : Nat), (0 : Nat))] : List (Nat × Nat)).Perm
      (cellsToFill (setCell canonicalGrid 0 0 0)) ∧
    0 < (cellsToFill (setCell canonicalGrid 0 0 0)).length ∧
    (create_solving_frames (setCell canonicalGrid 0 0 0) canonicalGrid
      (mkRat 43 4) 1 4 none [(0, 0)]).length =
      2 * 4 + (max 1 (pyRoundDiv (max 1 (intTruncDiv ((mkRat 43 4).num * 1)
          ((mkRat 43 4).den : Int) - 2 * ((4 : Nat) : Int)))
        ((cellsToFill (setCell canonicalGrid 0 0 0)).length : Int))).toNat *
        (cellsToFill (setCell canonicalGrid 0 0 0)).length := by
  refine ⟨by decide, by decide, ?_⟩
  exact (claim_C4_amended_schedule (setCell canonicalGrid 0 0 0) canonicalGrid
    (mkRat 43 4) 1 4 [(0, 0)] (by decide)).1 (by decide)

/-! ### Reveal completeness -/

theorem finalRevealState_eval (solution : Grid) :
    ∀ (cells : List (Nat × Nat)) (puzzle : Grid) (i j : Nat),
      finalRevealState puzzle solution cells i j =
        if (i, j) ∈ cells then solution i j else puzzle i j := by
  intro cells
  induction cells with
  | nil => intro puzzle i j; simp [finalRevealState]
  | cons q rest ih =>
    intro puzzle i j
    obtain ⟨r, c⟩ := q
    have hstep : finalRevealState puzzle solution ((r, c) :: rest) =
        finalRevealState (setCell puzzle r c (solution r c)) solution rest := rfl
    rw [hstep, ih]
    by_cases hm : (i, j) ∈ rest
    · simp [hm, List.mem_cons]
    · by_cases hij : i = r ∧ j = c
      · obtain ⟨rfl, rfl⟩ := hij
        simp [hm, setCell_eval]
      · have hne : ((i, j) : Nat × Nat) ≠ (r, c) := by
          intro h
          exact hij ⟨congrArg Prod.fst h, congrArg Prod.snd h⟩
        simp [hm, setCell_eval, hij, List.mem_cons, hne]

theorem revealSteps_highlight_mem (solution : Grid) (s : Nat) (hs : 0 < s) :
    ∀ (cells : List (Nat × Nat)) (st : Grid) (p : Nat × Nat),
      p ∈ highlightsOf (revealSteps solution s st cells) ↔ p ∈ cells := by
  intro cells
  induction cells with
  | nil => intro st p; simp [revealSteps, highlightsOf]
  | cons q rest ih =>
    intro st p
    obtain ⟨r, c⟩ := q
    have ihh := ih (setCell st r c (solution r c)) p
    simp only [highlightsOf, List.mem_flatMap] at ihh ⊢
    rw [revealSteps]
    constructor
    · rintro ⟨f, hf, hp⟩
      rcases List.mem_append.mp hf with hf1 | hf2
      · have hfe := (List.mem_replicate.mp hf1).2
        subst hfe
        simp only [List.mem_singleton] at hp
        simp [hp]
      · exact List.mem_cons_of_mem _ (ihh.mp ⟨f, hf2, hp⟩)
    · intro hp
      rcases List.mem_cons.mp hp with rfl | hmem
      · refine ⟨(setCell st r c (solution r c), [(r, c)]), ?_, by simp⟩
        exact List.mem_append_left _
          (List.mem_replicate.mpr ⟨Nat.pos_iff_ne_zero.mp hs, rfl⟩)
      · obtain ⟨f, hf, hp2⟩ := ihh.mpr hmem
        exact ⟨f, List.mem_append_right _ hf, hp2⟩

theorem getLast?_replicate_pos {α : Type} (x : α) (n : Nat) (hn : 0 < n) :
    (List.replicate n x).getLast? = some x := by
  induction n with
  | zero => cases hn
  | succ m ih =>
    cases m with
    | zero => rfl
    | succ m2 =>
      rw [List.replicate_succ, List.replicate_succ, List.getLast?_cons_cons,
        ← List.replicate_succ]
      exact ih (Nat.succ_pos m2)

theorem getLast?_append_append_replicate {α : Type} (l1 l2 : List α) (x : α)
    (n : Nat) (hn : 0 < n) :
    (l1 ++ l2 ++ List.replicate n x).getLast? = some x := by
  have hrep : List.replicate n x ≠ [] := List.ne_nil_of_length_pos (by simpa using hn)
  rw [List.getLast?_append_of_ne_nil (l1 ++ l2) hrep, getLast?_replicate_pos x n hn]

theorem cellsToFill_nodup (g : Grid) : (cellsToFill g).Nodup :=
  List.Nodup.filter _ allPositions_nodup

/-- The grid shown by the last reveal frame is the final reveal state. -/
theorem revealSteps_getLast (solution : Grid) (s : Nat) (hs : 0 < s) :
    ∀ (cells : List (Nat × Nat)) (st : Grid), cells ≠ [] →
      (revealSteps solution s st cells).getLast?.map Prod.fst =
        some (finalRevealState st solution cells) := by
  intro cells
  induction cells with
  | nil => intro st h; exact absurd rfl h
  | cons q rest ih =>
    intro st _
    obtain ⟨r, c⟩ := q
    rw [revealSteps]
    by_cases hrest : rest = []
    · subst hrest
      rw [show revealSteps solution s (setCell st r c (solution r c)) [] = []
          from rfl, List.append_nil, getLast?_replicate_pos _ s hs]
      rfl
    · have hne : revealSteps solution s (setCell st r c (solution r c)) rest ≠ [] := by
        intro h
        have hlen := revealSteps_length solution s rest (setCell st r c (solution r c))
        rw [h] at hlen
        have hr0 : rest.length ≠ 0 := fun hh => hrest (List.length_eq_zero.mp hh)
        simp only [List.length_nil] at hlen
        have := Nat.mul_pos (Nat.pos_of_ne_zero hr0) hs
        omega
      rw [List.getLast?_append_of_ne_nil _ hne, ih _ hrest]
      rfl

/-- C6.  For a consistent `(puzzle, solution)` pair, the reveal loop's
final grid state agrees with `solution` on every position, the last
frame emitted (for a positive hold) is the solution with no highlight,
for a zero hold the last emitted frame shows the final reveal state,
and the number of distinct highlighted cells across the sequence equals
the number of zero cells of the puzzle. -/
theorem claim_C6_reveal_completeness (puzzle solution : Grid) (duration : ℚ)
    (fps : Int) (hold : Nat) (shuffled : List (Nat × Nat))
    (hperm : shuffled.Perm (cellsToFill puzzle))
    (hcons : ∀ p ∈ allPositions, puzzle p.1 p.2 ≠ 0 →
      puzzle p.1 p.2 = solution p.1 p.2) :
    (∀ p ∈ allPositions,
      finalRevealState puzzle solution shuffled p.1 p.2 = solution p.1 p.2) ∧
    (0 < hold →
      (create_solving_frames puzzle solution duration fps hold none shuffled).getLast? =
        some (solution, [])) ∧
    (hold = 0 → shuffled ≠ [] →
      (create_solving_frames puzzle solution duration fps hold none shuffled).getLast?.map
          Prod.fst = some (finalRevealState puzzle solution shuffled)) ∧
    (highlightsOf
        (create_solving_frames puzzle solution duration fps hold none shuffled)).toFinset.card =
      (cellsToFill puzzle).length := by
  have hpos := stepFramesFor_pos (cellsToFill puzzle).length
    (availableFrames (targetFrames duration fps) hold)
  have hstep : 0 < (stepFramesFor (cellsToFill puzzle).length
      (availableFrames (targetFrames duration fps) hold)).toNat := by omega
  refine ⟨?_, ?_, ?_, ?_⟩
  · intro p hp
    rw [finalRevealState_eval]
    by_cases hm : (p.1, p.2) ∈ shuffled
    · rw [if_pos hm]
    · rw [if_neg hm]
      have hnotfill : p ∉ cellsToFill puzzle := by
        intro hc
        exact hm (by simpa using hperm.mem_iff.mpr hc)
      have hnz : puzzle p.1 p.2 ≠ 0 := by
        intro h0
        exact hnotfill (List.mem_filter.mpr ⟨hp, by simpa using h0⟩)
      exact hcons p hp hnz
  · intro hh
    unfold create_solving_frames
    exact getLast?_append_append_replicate _ _ _ hold hh
  · intro hh hne
    subst hh
    unfold create_solving_frames
    simp only [stepChoice_none, List.replicate_zero, List.nil_append, List.append_nil]
    exact revealSteps_getLast solution _ hstep shuffled puzzle hne
  · have hmemiff : ∀ p : Nat × Nat,
        p ∈ highlightsOf (create_solving_frames puzzle solution duration fps hold
          none shuffled) ↔ p ∈ shuffled := by
      intro p
      have hmid := revealSteps_highlight_mem solution _ hstep shuffled puzzle p
      unfold highlightsOf at hmid
      unfold create_solving_frames highlightsOf
      simp only [stepChoice_none, List.flatMap_append, List.mem_append, hmid]
      simp only [List.mem_flatMap, List.mem_replicate]
      constructor
      · rintro ((⟨f, ⟨-, rfl⟩, hpf⟩ | h) | ⟨f, ⟨-, rfl⟩, hpf⟩)
        · cases hpf
        · exact h
        · cases hpf
      · intro h
        exact Or.inl (Or.inr h)
    have hnd : shuffled.Nodup := hperm.nodup_iff.mpr (cellsToFill_nodup puzzle)
    have hset : (highlightsOf (create_solving_frames puzzle solution duration fps hold
        none shuffled)).toFinset = shuffled.toFinset := by
      ext p
      simp only [List.mem_toFinset]
      exact hmemiff p
    rw [hset, List.toFinset_card_of_nodup hnd, hperm.length_eq]

theorem claim_C6_reveal_completeness_witness :
    ([((0 : Nat), (0 : Nat))] : List (Nat × Nat)).Perm
      (cellsToFill (setCell canonicalGrid 0 0 0)) ∧
    (∀ p ∈ allPositions, setCell canonicalGrid 0 0 0 p.1 p.2 ≠ 0 →
      setCell canonicalGrid 0 0 0 p.1 p.2 = canonicalGrid p.1 p.2) ∧
    (create_solving_frames (setCell canonicalGrid 0 0 0) canonicalGrid
      (mkRat 10 1) 15 4 none [(0, 0)]).getLast? = some (canonicalGrid, []) ∧
    (highlightsOf (create_solving_frames (setCell canonicalGrid 0 0 0) canonicalGrid
      (mkRat 10 1) 15 4 none [(0, 0)])).toFinset.card =
      (cellsToFill (setCell canonicalGrid 0 0 0)).length := by
  refine ⟨by decide, by decide, ?_, ?_⟩
  · exact (claim_C6_reveal_completeness (setCell canonicalGrid 0 0 0) canonicalGrid
      (mkRat 10 1) 15 4 [(0, 0)] (by decide) (by decide)).2.1 (by omega)
  · exact (claim_C6_reveal_completeness (setCell canonicalGrid 0 0 0) canonicalGrid
      (mkRat 10 1) 15 4 [(0, 0)] (by decide) (by decide)).2.2.2

/-! ### Heap-level frame conditions of the scheduler -/

/-- The heap-level reveal loop writes only the fresh copy's address. -/
theorem revealLoopH_frame (sa fresh : Nat) (s : Nat) :
    ∀ (cells : List (Nat × Nat)) (h : Heap) (x : Nat), x ≠ fresh →
      (revealLoopH sa fresh s h cells).1 x = h x := by
  intro cells
  induction cells with
  | nil => intro h x _; rfl
  | cons q rest ih =>
    intro h x hx
    obtain ⟨r, c⟩ := q
    have hred : (revealLoopH sa fresh s h ((r, c) :: rest)).1 =
        (revealLoopH sa fresh s
          (writeHeap h fresh (setCell (h fresh) r c (h sa r c))) rest).1 := rfl
    rw [hred, ih _ _ hx, writeHeap, if_neg hx]

/-- C10.  The heap-level scheduler leaves both of its grid arguments
unchanged: all writes go to the freshly allocated deep copy of the
puzzle, so after the call the puzzle address and the solution address
hold their pre-call grids. -/
theorem claim_C10_frame_effect (h0 : Heap) (pa sa fresh : Nat) (duration : ℚ)
    (fps : Int) (hold : Nat) (stepArg : Option Int) (shuffled : List (Nat × Nat))
    (hpa : pa ≠ fresh) (hsa : sa ≠ fresh) :
    (create_solving_frames_heap h0 pa sa fresh duration fps hold stepArg
      shuffled).1 pa = h0 pa ∧
    (create_solving_frames_heap h0 pa sa fresh duration fps hold stepArg
      shuffled).1 sa = h0 sa := by
  have hkey : ∀ x, x ≠ fresh →
      (create_solving_frames_heap h0 pa sa fresh duration fps hold stepArg
        shuffled).1 x = h0 x := by
    intro x hx
    have hred : (create_solving_frames_heap h0 pa sa fresh duration fps hold stepArg
        shuffled).1 =
        (revealLoopH sa fresh
          (stepChoice stepArg (cellsToFill (h0 pa)).length duration fps hold).toNat
          (writeHeap h0 fresh (h0 pa)) shuffled).1 := rfl
    rw [hred, revealLoopH_frame sa fresh _ shuffled _ x hx, writeHeap, if_neg hx]
  exact ⟨hkey pa hpa, hkey sa hsa⟩

theorem claim_C10_frame_effect_witness :
    (0 : Nat) ≠ 2 ∧ (1 : Nat) ≠ 2 ∧
    (create_solving_frames_heap (fun _ => canonicalGrid) 0 1 2 (mkRat 10 1) 15 4
      none [(0, 0)]).1 0 = canonicalGrid ∧
    (create_solving_frames_heap (fun _ => canonicalGrid) 0 1 2 (mkRat 10 1) 15 4
      none [(0, 0)]).1 1 = canonicalGrid := by
  refine ⟨by decide, by decide, ?_, ?_⟩
  · exact (claim_C10_frame_effect (fun _ => canonicalGrid) 0 1 2 (mkRat 10 1) 15 4
      none [(0, 0)] (by decide) (by decide)).1
  · exact (claim_C10_frame_effect (fun _ => canonicalGrid) 0 1 2 (mkRat 10 1) 15 4
      none [(0, 0)] (by decide) (by decide)).2

/-! ### Configuration-error behaviour -/

/-- C7 counterexample.  The out-of-range configuration
`min_givens = 17, max_givens = 100` (so `max_givens > 81`) raises
nothing: `_create_puzzle` returns normally, and (with
`target_givens = 90`) removes no cell at all, leaving all 81 givens. -/
theorem claim_C7_counterexample :
    create_puzzle_checked canonicalGrid 17 100 90 allPositions =
      Except.ok (create_puzzle canonicalGrid 90 allPositions) ∧
    givens (create_puzzle canonicalGrid 90 allPositions) = 81 :=
  ⟨rfl, by decide⟩

/-- C7 amended.  Puzzle generation performs no configuration validation:
when `min_givens > max_givens`, `random.randint` itself raises
`ValueError` (not a `ConfigurationError`, which does not exist) before
consuming randomness; when `min_givens ≤ max_givens` no error is ever
raised — in particular `max_givens > 81` passes silently, and any
`target_givens ≥ 81` makes the carving loop remove no cells. -/
theorem claim_C7_amended_config_errors (puzzle : Grid) (minG maxG t : Int)
    (ps : List (Nat × Nat)) :
    (maxG < minG →
      create_puzzle_checked puzzle minG maxG t ps = Except.error "ValueError") ∧
    (minG ≤ maxG →
      create_puzzle_checked puzzle minG maxG t ps =
        Except.ok (create_puzzle puzzle t ps)) ∧
    (81 ≤ t → create_puzzle puzzle t ps = puzzle) := by
  refine ⟨?_, ?_, ?_⟩
  · intro h
    rw [create_puzzle_checked, if_pos h]
  · intro h
    rw [create_puzzle_checked, if_neg (by omega)]
  · intro ht
    cases ps with
    | nil => rfl
    | cons q rest =>
      obtain ⟨r, c⟩ := q
      rw [create_puzzle, carveLoop, if_pos (by omega)]

theorem claim_C7_amended_config_errors_witness :
    (20 : Int) < 40 ∧
    create_puzzle_checked canonicalGrid 40 20 30 allPositions =
      Except.error "ValueError" ∧
    create_puzzle canonicalGrid 90 allPositions = canonicalGrid := by
  refine ⟨by decide, ?_, ?_⟩
  · exact (claim_C7_amended_config_errors canonicalGrid 40 20 30 allPositions).1
      (by decide)
  · exact (claim_C7_amended_config_errors canonicalGrid 17 100 90 allPositions).2.2
      (by decide)

/-! ### Solver failure at the top level -/

/-- C8.  On a grid where the backtracking search exhausts all candidates
at the top level (here `stuckGrid`, whose first empty cell has no valid
candidate), `_solve_sudoku` returns `False`, and the code path of
`_generate_complete_sudoku` (`solveAndReturn`, which discards that
boolean) returns the partially filled grid unchanged instead of
raising: no `InternalInvariantViolation` — indeed no exception of any
kind — exists in the generator. -/
theorem claim_C8_solver_failure_silent :
    (solve_sudoku 82 stuckGrid identityStream 0).1 = false ∧
    solveAndReturn stuckGrid identityStream = stuckGrid ∧
    stuckGrid 0 8 = 0 ∧
    0 < (cellsToFill stuckGrid).length :=
  ⟨by decide, rfl, by decide, by decide⟩

/-! ### The seeded grid in closed form -/

theorem fill_box_eval (g : Grid) (r c : Nat) (nums : List Nat) (i j : Nat) :
    fill_box g r c nums i j =
      if r ≤ i ∧ i < r + 3 ∧ c ≤ j ∧ j < c + 3
      then nums.getD (3 * (i - r) + (j - c)) 0
      else g i j := by
  have h3 : List.range 3 = [0, 1, 2] := rfl
  simp only [fill_box, h3, List.foldl_cons, List.foldl_nil, setCell_eval]
  split_ifs <;> first
    | rfl
    | (congr 1; omega)

theorem seedGrid_eval (p0 p1 p2 : List Nat) (i j : Nat) :
    seedGrid p0 p1 p2 i j =
      if 6 ≤ i ∧ i < 6 + 3 ∧ 6 ≤ j ∧ j < 6 + 3 then p2.getD (3 * (i - 6) + (j - 6)) 0
      else if 3 ≤ i ∧ i < 3 + 3 ∧ 3 ≤ j ∧ j < 3 + 3 then p1.getD (3 * (i - 3) + (j - 3)) 0
      else if 0 ≤ i ∧ i < 0 + 3 ∧ 0 ≤ j ∧ j < 0 + 3 then p0.getD (3 * (i - 0) + (j - 0)) 0
      else 0 := by
  rw [seedGrid, fill_box_eval, fill_box_eval, fill_box_eval]
  rfl

/-! ### Units: membership and case analysis -/

theorem mem_rowUnit {p : Nat × Nat} {r : Nat} (h : p ∈ rowUnit r) :
    p.1 = r ∧ p.2 < 9 := by
  simp only [rowUnit, List.mem_map, List.mem_range] at h
  obtain ⟨c, hc, rfl⟩ := h
  exact ⟨rfl, hc⟩

theorem mem_colUnit {p : Nat × Nat} {c : Nat} (h : p ∈ colUnit c) :
    p.2 = c ∧ p.1 < 9 := by
  simp only [colUnit, List.mem_map, List.mem_range] at h
  obtain ⟨r, hr, rfl⟩ := h
  exact ⟨rfl, hr⟩

theorem mem_boxUnit {p : Nat × Nat} {a b : Nat} (h : p ∈ boxUnit a b) :
    ∃ bi bj, bi < 3 ∧ bj < 3 ∧ p = (3 * a + bi, 3 * b + bj) := by
  simp only [boxUnit, List.mem_flatMap, List.mem_map, List.mem_range] at h
  obtain ⟨bi, hbi, bj, hbj, rfl⟩ := h
  exact ⟨bi, bj, hbi, hbj, rfl⟩

theorem units_cases {u : List (Nat × Nat)} (hu : u ∈ units) :
    (∃ r, r < 9 ∧ u = rowUnit r) ∨ (∃ c, c < 9 ∧ u = colUnit c) ∨
    (∃ a b, a < 3 ∧ b < 3 ∧ u = boxUnit a b) := by
  simp only [units, List.mem_append, List.mem_map, List.mem_flatMap,
    List.mem_range] at hu
  rcases hu with (⟨r, hr, he⟩ | ⟨c, hc, he⟩) | ⟨a, ha, b, hb, he⟩
  · exact Or.inl ⟨r, hr, he.symm⟩
  · exact Or.inr (Or.inl ⟨c, hc, he.symm⟩)
  · exact Or.inr (Or.inr ⟨a, b, ha, hb, he.symm⟩)

/-! ### The seeded grid is consistent -/

theorem getD_ne_of_nodup {l : List Nat} (hnd : l.Nodup) (h9 : l.length = 9)
    {i1 i2 : Nat} (hi1 : i1 < 9) (hi2 : i2 < 9) (hne : i1 ≠ i2) :
    l.getD i1 0 ≠ l.getD i2 0 := by
  rw [List.getD_eq_getElem l 0 (by omega), List.getD_eq_getElem l 0 (by omega)]
  intro he
  exact hne ((List.Nodup.getElem_inj_iff hnd).mp he)

theorem perm_range_facts {l : List Nat} (h : l.Perm (List.range' 1 9)) :
    l.Nodup ∧ l.length = 9 ∧ ∀ n ∈ l, 1 ≤ n ∧ n ≤ 9 := by
  refine ⟨h.nodup_iff.mpr (by decide), by rw [h.length_eq]; rfl, ?_⟩
  intro n hn
  have hm := List.mem_range'_1.mp (h.subset hn)
  omega

/-- Classification of non-zero seeded cells: each lies in one of the
three diagonal blocks and carries the corresponding shuffle entry. -/
theorem seedGrid_nonzero_cases (p0 p1 p2 : List Nat) (i j : Nat)
    (h : seedGrid p0 p1 p2 i j ≠ 0) :
    (i < 3 ∧ j < 3 ∧ seedGrid p0 p1 p2 i j = p0.getD (3 * i + j) 0) ∨
    (3 ≤ i ∧ i < 6 ∧ 3 ≤ j ∧ j < 6 ∧
      seedGrid p0 p1 p2 i j = p1.getD (3 * (i - 3) + (j - 3)) 0) ∨
    (6 ≤ i ∧ i < 9 ∧ 6 ≤ j ∧ j < 9 ∧
      seedGrid p0 p1 p2 i j = p2.getD (3 * (i - 6) + (j - 6)) 0) := by
  rw [seedGrid_eval] at h ⊢
  split_ifs at h ⊢ with hb2 hb1 hb0
  · right; right
    refine ⟨by omega, by omega, by omega, by omega, rfl⟩
  · right; left
    refine ⟨by omega, by omega, by omega, by omega, rfl⟩
  · left
    refine ⟨by omega, by omega, rfl⟩
  · exact absurd rfl h

/-- Positions of one unit that lie in diagonal blocks lie in the same
diagonal block. -/
theorem unit_same_block {u : List (Nat × Nat)} (hu : u ∈ units) {p q : Nat × Nat}
    (hp : p ∈ u) (hq : q ∈ u) (a a' : Nat)
    (hpa : 3 * a ≤ p.1 ∧ p.1 < 3 * a + 3 ∧ 3 * a ≤ p.2 ∧ p.2 < 3 * a + 3)
    (hqa : 3 * a' ≤ q.1 ∧ q.1 < 3 * a' + 3 ∧ 3 * a' ≤ q.2 ∧ q.2 < 3 * a' + 3) :
    a = a' := by
  rcases units_cases hu with ⟨r, _, rfl⟩ | ⟨c, _, rfl⟩ | ⟨A, B, _, _, rfl⟩
  · have hp1 := (mem_rowUnit hp).1
    have hq1 := (mem_rowUnit hq).1
    omega
  · have hp2 := (mem_colUnit hp).1
    have hq2 := (mem_colUnit hq).1
    omega
  · obtain ⟨bi, bj, hbi, hbj, rfl⟩ := mem_boxUnit hp
    obtain ⟨bi2, bj2, hbi2, hbj2, rfl⟩ := mem_boxUnit hq
    simp only at hpa hqa
    omega

/-- The diagonal-box seeding produces a consistent, in-range grid: the
three blocks pairwise share no unit, and inside one block the values are
distinct entries of one permutation. -/
theorem seedGrid_invariant (p0 p1 p2 : List Nat)
    (h0 : p0.Perm (List.range' 1 9)) (h1 : p1.Perm (List.range' 1 9))
    (h2 : p2.Perm (List.range' 1 9)) :
    Consistent (seedGrid p0 p1 p2) ∧ InRange (seedGrid p0 p1 p2) := by
  obtain ⟨h0n, h0l, h0r⟩ := perm_range_facts h0
  obtain ⟨h1n, h1l, h1r⟩ := perm_range_facts h1
  obtain ⟨h2n, h2l, h2r⟩ := perm_range_facts h2
  constructor
  · intro u hu p hp q hq hpq hnz
    by_cases hqz : seedGrid p0 p1 p2 q.1 q.2 = 0
    · rw [hqz]
      exact hnz
    · have hne2 : ¬(p.1 = q.1 ∧ p.2 = q.2) := by
        rintro ⟨e1, e2⟩
        exact hpq (Prod.ext e1 e2)
      rcases seedGrid_nonzero_cases p0 p1 p2 p.1 p.2 hnz with
        ⟨b1, b2, hv⟩ | ⟨b1, b2, b3, b4, hv⟩ | ⟨b1, b2, b3, b4, hv⟩ <;>
        rcases seedGrid_nonzero_cases p0 p1 p2 q.1 q.2 hqz with
          ⟨c1, c2, hw⟩ | ⟨c1, c2, c3, c4, hw⟩ | ⟨c1, c2, c3, c4, hw⟩
      · rw [hv, hw]
        exact getD_ne_of_nodup h0n h0l (by omega) (by omega) (by omega)
      · exact absurd (unit_same_block hu hp hq
          0 1 (by omega) (by omega)) (by omega)
      · exact absurd (unit_same_block hu hp hq
          0 2 (by omega) (by omega)) (by omega)
      · exact absurd (unit_same_block hu hp hq
          1 0 (by omega) (by omega)) (by omega)
      · rw [hv, hw]
        exact getD_ne_of_nodup h1n h1l (by omega) (by omega) (by omega)
      · exact absurd (unit_same_block hu hp hq
          1 2 (by omega) (by omega)) (by omega)
      · exact absurd (unit_same_block hu hp hq
          2 0 (by omega) (by omega)) (by omega)
      · exact absurd (unit_same_block hu hp hq
          2 1 (by omega) (by omega)) (by omega)
      · rw [hv, hw]
        exact getD_ne_of_nodup h2n h2l (by omega) (by omega) (by omega)
  · intro p _
    by_cases hz : seedGrid p0 p1 p2 p.1 p.2 = 0
    · omega
    · rcases seedGrid_nonzero_cases p0 p1 p2 p.1 p.2 hz with
        ⟨b1, b2, hv⟩ | ⟨b1, b2, b3, b4, hv⟩ | ⟨b1, b2, b3, b4, hv⟩
      · rw [hv, List.getD_eq_getElem p0 0 (by omega)]
        exact (h0r _ (List.getElem_mem _)).2
      · rw [hv, List.getD_eq_getElem p1 0 (by omega)]
        exact (h1r _ (List.getElem_mem _)).2
      · rw [hv, List.getD_eq_getElem p2 0 (by omega)]
        exact (h2r _ (List.getElem_mem _)).2

/-! ### Soundness of the backtracking solver -/

theorem is_valid_spec {g : Grid} {i j n : Nat} (h : is_valid g i j n = true) :
    (∀ c, c < 9 → g i c ≠ n) ∧ (∀ r, r < 9 → g r j ≠ n) ∧
    (∀ bi bj, bi < 3 → bj < 3 → g (i / 3 * 3 + bi) (j / 3 * 3 + bj) ≠ n) := by
  simp only [is_valid, Bool.and_eq_true, List.all_eq_true, List.mem_range,
    bne_iff_ne, ne_eq] at h
  obtain ⟨⟨hrow, hcol⟩, hbox⟩ := h
  exact ⟨fun c hc => hrow c hc, fun r hr => hcol r hr,
    fun bi bj h1 h2 => hbox bi h1 bj h2⟩

theorem mem_allPositions_bounds {p : Nat × Nat} (h : p ∈ allPositions) :
    p.1 < 9 ∧ p.2 < 9 := by
  simp only [allPositions, List.mem_flatMap, List.mem_map, List.mem_range] at h
  obtain ⟨i, hi, j, hj, rfl⟩ := h
  exact ⟨hi, hj⟩

theorem firstEmpty_some {g : Grid} {i j : Nat} (h : firstEmpty g = some (i, j)) :
    i < 9 ∧ j < 9 ∧ g i j = 0 := by
  have hm := List.mem_of_find?_eq_some h
  have hp := List.find?_some h
  have hb := mem_allPositions_bounds hm
  exact ⟨hb.1, hb.2, by simpa using hp⟩

theorem firstEmpty_none {g : Grid} (h : firstEmpty g = none) : Full g := by
  intro p hp
  have := List.find?_eq_none.mp h p hp
  simpa using this

/-- Every cell of a unit through `(i, j)` avoids a value that `_is_valid`
accepts at `(i, j)` (the zero cell `(i, j)` itself included, since the
accepted value is positive). -/
theorem unit_avoids_valid_value {g : Grid} {i j n : Nat}
    (hv : is_valid g i j n = true) :
    ∀ u ∈ units, (i, j) ∈ u → ∀ q ∈ u, g q.1 q.2 ≠ n := by
  obtain ⟨hrow, hcol, hbox⟩ := is_valid_spec hv
  intro u hu hij q hq
  rcases units_cases hu with ⟨r, _, rfl⟩ | ⟨c, _, rfl⟩ | ⟨A, B, _, _, rfl⟩
  · have h1 := mem_rowUnit hij
    have h2 := mem_rowUnit hq
    rw [show q.1 = i from by omega]
    exact hrow q.2 h2.2
  · have h1 := mem_colUnit hij
    have h2 := mem_colUnit hq
    rw [show q.2 = j from by omega]
    exact hcol q.1 h2.2
  · obtain ⟨bi0, bj0, hbi0, hbj0, hpe⟩ := mem_boxUnit hij
    obtain ⟨bi, bj, hbi, hbj, rfl⟩ := mem_boxUnit hq
    have he1 : i = 3 * A + bi0 := congrArg Prod.fst hpe
    have he2 : j = 3 * B + bj0 := congrArg Prod.snd hpe
    have hA3 : 3 * A = i / 3 * 3 := by omega
    have hB3 : 3 * B = j / 3 * 3 := by omega
    simp only
    rw [hA3, hB3]
    exact hbox bi bj hbi hbj

/-- Placing an `_is_valid`-accepted positive value in an empty cell
preserves consistency. -/
theorem place_keeps_consistent {g : Grid} {i j n : Nat}
    (hv : is_valid g i j n = true)
    (hc : Consistent g) : Consistent (setCell g i j n) := by
  have key := unit_avoids_valid_value hv
  intro u hu p hp q hq hpq hnz
  by_cases hpij : p = (i, j)
  · subst hpij
    have hq_ne : ¬(q.1 = i ∧ q.2 = j) := by
      rintro ⟨e1, e2⟩
      exact hpq (Prod.ext e1 e2).symm
    rw [setCell_eval, if_pos ⟨rfl, rfl⟩, setCell_eval, if_neg hq_ne]
    exact fun he => key u hu hp q hq he.symm
  · have hp_ne : ¬(p.1 = i ∧ p.2 = j) := by
      rintro ⟨e1, e2⟩
      exact hpij (Prod.ext e1 e2)
    by_cases hqij : q = (i, j)
    · subst hqij
      rw [setCell_eval, if_neg hp_ne, setCell_eval, if_pos ⟨rfl, rfl⟩]
      exact key u hu hq p hp
    · have hq_ne : ¬(q.1 = i ∧ q.2 = j) := by
        rintro ⟨e1, e2⟩
        exact hqij (Prod.ext e1 e2)
      rw [setCell_eval, if_neg hp_ne, setCell_eval, if_neg hq_ne]
      rw [setCell_eval, if_neg hp_ne] at hnz
      exact hc u hu p hp q hq hpq hnz

theorem place_keeps_inRange {g : Grid} {i j n : Nat} (hn : n ≤ 9)
    (hr : InRange g) : InRange (setCell g i j n) := by
  intro p hp
  rw [setCell_eval]
  split
  · exact hn
  · exact hr p hp

/-- The candidate loop of the solver: starting from a consistent in-range
grid it returns a consistent in-range grid, and when it reports success
the returned grid is full.  `solveRest` is assumed to have the same
property (it is the recursive call at one less fuel). -/
theorem tryNums_sound (solveRest : Grid → Nat → Bool × Grid × Nat)
    (hrest : ∀ g k, Consistent g → InRange g →
      (Consistent (solveRest g k).2.1 ∧ InRange (solveRest g k).2.1) ∧
      ((solveRest g k).1 = true → Full (solveRest g k).2.1))
    (i j : Nat) :
    ∀ (nums : List Nat) (g : Grid) (k : Nat), Consistent g → InRange g →
      g i j = 0 → (∀ n ∈ nums, 1 ≤ n ∧ n ≤ 9) →
      (Consistent (tryNums solveRest g i j nums k).2.1 ∧
        InRange (tryNums solveRest g i j nums k).2.1) ∧
      ((tryNums solveRest g i j nums k).1 = true →
        Full (tryNums solveRest g i j nums k).2.1) := by
  intro nums
  induction nums with
  | nil =>
    intro g k hc hr _ _
    exact ⟨⟨hc, hr⟩, fun h => nomatch h⟩
  | cons n rest ih =>
    intro g k hc hr h0 hrange
    rw [tryNums]
    by_cases hv : is_valid g i j n = true
    · rw [if_pos hv]
      have hn := hrange n (List.mem_cons_self _ _)
      have hc' : Consistent (setCell g i j n) := place_keeps_consistent hv hc
      have hr' : InRange (setCell g i j n) := place_keeps_inRange hn.2 hr
      have hres := hrest (setCell g i j n) k hc' hr'
      rcases hE : solveRest (setCell g i j n) k with ⟨b, g2, k2⟩
      rw [hE] at hres
      cases b
      · exact ih g k2 hc hr h0 fun m hm => hrange m (List.mem_cons_of_mem _ hm)
      · exact ⟨hres.1, fun _ => hres.2 rfl⟩
    · rw [if_neg hv]
      exact ih g k hc hr h0 fun m hm => hrange m (List.mem_cons_of_mem _ hm)

/-- `_solve_sudoku` preserves consistency and range, and reports success
only with a fully filled grid. -/
theorem solve_sudoku_sound (σ : Nat → List Nat)
    (hσ : ∀ m, ∀ n ∈ σ m, 1 ≤ n ∧ n ≤ 9) :
    ∀ (fuel : Nat) (g : Grid) (k : Nat), Consistent g → InRange g →
      (Consistent (solve_sudoku fuel g σ k).2.1 ∧
        InRange (solve_sudoku fuel g σ k).2.1) ∧
      ((solve_sudoku fuel g σ k).1 = true →
        Full (solve_sudoku fuel g σ k).2.1) := by
  intro fuel
  induction fuel with
  | zero =>
    intro g k hc hr
    exact ⟨⟨hc, hr⟩, fun h => nomatch h⟩
  | succ fuel ih =>
    intro g k hc hr
    rw [solve_sudoku]
    rcases hFE : firstEmpty g with _ | ⟨i, j⟩
    · exact ⟨⟨hc, hr⟩, fun _ => firstEmpty_none hFE⟩
    · have hb := firstEmpty_some hFE
      exact tryNums_sound (fun g2 k2 => solve_sudoku fuel g2 σ k2)
        (fun g2 k2 hc2 hr2 => ih g2 k2 hc2 hr2) i j (σ k) g (k + 1)
        hc hr hb.2.2 (hσ k)

/-! ### From full and consistent to valid -/

/-- A full, in-range, consistent grid satisfies the validity property:
each unit's nine pairwise-distinct values from `[1..9]` are a
permutation of `[1..9]`. -/
theorem valid_of_full_consistent {g : Grid} (hc : Consistent g) (hr : InRange g)
    (hf : Full g) : validSolution g := by
  have hulen : ∀ v ∈ units, v.length = 9 := by decide
  have husub : ∀ v ∈ units, ∀ p ∈ v, p ∈ allPositions := by decide
  have hund : ∀ v ∈ units, v.Nodup := by decide
  intro u hu
  have hpw : List.Pairwise (fun p q : Nat × Nat => g p.1 p.2 ≠ g q.1 q.2) u := by
    refine List.Pairwise.imp_of_mem ?_ (hund u hu)
    intro p q hp hq hne
    exact hc u hu p hp q hq hne (hf p (husub u hu p hp))
  have hvn : (u.map fun p => g p.1 p.2).Nodup := List.pairwise_map.mpr hpw
  have hsub : (u.map fun p => g p.1 p.2) ⊆ List.range' 1 9 := by
    intro v hv
    obtain ⟨p, hp, rfl⟩ := List.mem_map.mp hv
    have h1 := hf p (husub u hu p hp)
    have h2 := hr p (husub u hu p hp)
    exact List.mem_range'_1.mpr ⟨by omega, by omega⟩
  have hsp := List.subperm_of_subset hvn hsub
  apply hsp.perm_of_length_le
  rw [List.length_map, hulen u hu]
  rfl

/-- The conditional correctness of `_generate_complete_sudoku` supporting
claim C1: whenever the top-level backtracking call reports success (its
boolean is `True`), the returned grid satisfies the full validity
property — every row, column and aligned 3×3 box holds each digit 1–9
exactly once.  What remains unmechanized for C1 itself is only that the
solver succeeds for every diagonal seeding. -/
theorem generate_complete_sudoku_valid_of_success (p0 p1 p2 : List Nat)
    (σ : Nat → List Nat)
    (h0 : p0.Perm (List.range' 1 9)) (h1 : p1.Perm (List.range' 1 9))
    (h2 : p2.Perm (List.range' 1 9))
    (hσ : ∀ m, ∀ n ∈ σ m, 1 ≤ n ∧ n ≤ 9)
    (hsucc : (solve_sudoku 82 (seedGrid p0 p1 p2) σ 0).1 = true) :
    validSolution (generate_complete_sudoku p0 p1 p2 σ) := by
  obtain ⟨hc, hr⟩ := seedGrid_invariant p0 p1 p2 h0 h1 h2
  have hs := solve_sudoku_sound σ hσ 82 (seedGrid p0 p1 p2) 0 hc hr
  have hgen : generate_complete_sudoku p0 p1 p2 σ =
      (solve_sudoku 82 (seedGrid p0 p1 p2) σ 0).2.1 := rfl
  rw [hgen]
  exact valid_of_full_consistent hs.1.1 hs.1.2 (hs.2 hsucc)

/-- The canonical grid satisfies the validity property (non-vacuity of
`validSolution`). -/
theorem canonicalGrid_valid : validSolution canonicalGrid := by
  unfold validSolution
  decide

/-- A concrete successful solver run: one empty cell, refilled by the
backtracking search. -/
theorem solve_sudoku_success_instance :
    (solve_sudoku 82 (setCell canonicalGrid 0 0 0) identityStream 0).1 = true ∧
    validSolution (solve_sudoku 82 (setCell canonicalGrid 0 0 0)
      identityStream 0).2.1 := by
  constructor
  · decide
  · unfold validSolution
    decide

end SudokuGen
